import Mathlib

/-!
# Verification of the hft-matching-engine order book and session layer

A shallow embedding of the C++ sources (`src/OrderBook.cpp`, `src/Trade.cpp`,
`src/Order.cpp`, `src/Session.cpp`, `src/MarketPublisher.cpp` and the headers
under `include/`), together with proofs of the behavioural properties stated
in the specification.

Modelling conventions:
* C++ `double` prices are modelled as `ℚ`.  The matching logic only copies and
  compares prices (it never does arithmetic on them), and comparison of IEEE
  doubles agrees with comparison of the rationals they represent, so this is
  faithful for every reachable comparison.
* C++ `int` is modelled as `Int` (all reachable values are far from overflow;
  the session layer rejects out-of-range input before it reaches the book).
* `std::deque<Order>` is modelled as `List Order`; `std::vector<Trade>` as
  `List Trade`.
* `std::sort` with the strict-weak-order comparators of
  `OrderBook::sortOrders` is modelled as `List.insertionSort` with the
  corresponding reflexive total preorders; on lists whose elements have
  pairwise distinct `(price, id)` keys (all reachable books) every correct
  sort produces the same, unique result.
* The `while` loop of `OrderBook::matchOrders` is modelled with explicit fuel;
  `matchLoop_exit` proves that the fuel supplied by `matchOrders` always
  suffices, because every iteration that trades removes at least one order.
* `std::stod` is modelled on the full `strtod` grammar (decimal and
  hexadecimal significands with exponents, infinities, NaN, longest valid
  prefix, trailing characters ignored).  The exact rational value of a
  finite subject sequence stands for the double it rounds to; values whose
  treatment is uniform across conforming implementations are classified
  exactly, while infinities, NaN and the borderline rounding zones around
  the double range make `sessionStep` return `none` (the program then leaves
  the rational-price state space, or its behaviour is
  implementation-defined).
-/

namespace HftEngine

/-- `OrderType` from `include/Order.hpp`. -/
inductive OrderType where
  | BUY
  | SELL
deriving DecidableEq, Repr

/-- `Order` from `include/Order.hpp`: id, type, price, quantity.
`quantity` is the remaining quantity and is the only field mutated in place. -/
structure Order where
  id : Int
  type : OrderType
  price : ℚ
  quantity : Int
deriving DecidableEq, Repr

/-- `Trade` from `include/Trade.hpp`. -/
structure Trade where
  buyOrderId : Int
  sellOrderId : Int
  price : ℚ
  quantity : Int
deriving DecidableEq, Repr

/-- `OrderBook` from `OrderBook.hpp`: two sides, the next id to assign
(initialised to 1), and the append-only trade log.

`lastTradeIndex` — Modelled from the spec: the recent-trades cursor backing
`OrderBook::getRecentTrades`, which is called from `Session.cpp` but whose
definition (and the header revision declaring it) is not among the source
files.  Per the spec it is "an index or counter marking the boundary between
previously-read trades and those produced by the most recent `matchOrders`
invocation". -/
structure OrderBook where
  buyOrders : List Order
  sellOrders : List Order
  nextOrderId : Int
  trades : List Trade
  lastTradeIndex : Nat
deriving DecidableEq, Repr

/-- A freshly constructed book: empty sides, `nextOrderId = 1`, empty log. -/
def emptyBook : OrderBook := ⟨[], [], 1, [], 0⟩

/-- `OrderBook::addOrder` (`src/OrderBook.cpp`): construct the order with the
next id, append it to the back of its side, return the id. -/
def OrderBook.addOrder (ob : OrderBook) (type : OrderType) (price : ℚ)
    (quantity : Int) : Int × OrderBook :=
  let order : Order := ⟨ob.nextOrderId, type, price, quantity⟩
  match type with
  | OrderType.BUY =>
      (order.id, { ob with buyOrders := ob.buyOrders ++ [order],
                           nextOrderId := ob.nextOrderId + 1 })
  | OrderType.SELL =>
      (order.id, { ob with sellOrders := ob.sellOrders ++ [order],
                           nextOrderId := ob.nextOrderId + 1 })

/-- The `cancel` lambda inside `OrderBook::cancelOrder`: erase–remove of every
order with the given id; returns whether anything was removed, and the
remaining deque. -/
def cancelFrom (orderId : Int) (orders : List Order) : Bool × List Order :=
  if orders.any (fun o => o.id == orderId) then
    (true, orders.filter (fun o => !(o.id == orderId)))
  else
    (false, orders)

/-- `OrderBook::cancelOrder` (`src/OrderBook.cpp`):
`cancel(buyOrders) || cancel(sellOrders)` — the sell side is only searched
when nothing was removed from the buy side. -/
def OrderBook.cancelOrder (ob : OrderBook) (orderId : Int) : Bool × OrderBook :=
  let buyResult := cancelFrom orderId ob.buyOrders
  if buyResult.1 then
    (true, { ob with buyOrders := buyResult.2 })
  else
    let sellResult := cancelFrom orderId ob.sellOrders
    (sellResult.1, { ob with sellOrders := sellResult.2 })

/-- The buy-side comparator of `OrderBook::sortOrders` (higher price first,
ties broken by lower id), taken reflexively so that it is total. -/
def buyLe (a b : Order) : Prop :=
  b.price < a.price ∨ (a.price = b.price ∧ a.id ≤ b.id)

/-- The sell-side comparator of `OrderBook::sortOrders` (lower price first,
ties broken by lower id), taken reflexively so that it is total. -/
def sellLe (a b : Order) : Prop :=
  a.price < b.price ∨ (a.price = b.price ∧ a.id ≤ b.id)

instance : DecidableRel buyLe := fun a b => by unfold buyLe; infer_instance

instance : DecidableRel sellLe := fun a b => by unfold sellLe; infer_instance

instance : IsTotal Order buyLe where
  total a b := by
    unfold buyLe
    rcases lt_trichotomy a.price b.price with h | h | h
    · exact Or.inr (Or.inl h)
    · rcases le_total a.id b.id with hid | hid
      · exact Or.inl (Or.inr ⟨h, hid⟩)
      · exact Or.inr (Or.inr ⟨h.symm, hid⟩)
    · exact Or.inl (Or.inl h)

instance : IsTrans Order buyLe where
  trans a b c hab hbc := by
    unfold buyLe at *
    rcases hab with h1 | ⟨h1, h1'⟩ <;> rcases hbc with h2 | ⟨h2, h2'⟩
    · exact Or.inl (h2.trans h1)
    · exact Or.inl (h2 ▸ h1)
    · exact Or.inl (h1 ▸ h2)
    · exact Or.inr ⟨h1.trans h2, h1'.trans h2'⟩

instance : IsTotal Order sellLe where
  total a b := by
    unfold sellLe
    rcases lt_trichotomy a.price b.price with h | h | h
    · exact Or.inl (Or.inl h)
    · rcases le_total a.id b.id with hid | hid
      · exact Or.inl (Or.inr ⟨h, hid⟩)
      · exact Or.inr (Or.inr ⟨h.symm, hid⟩)
    · exact Or.inr (Or.inl h)

instance : IsTrans Order sellLe where
  trans a b c hab hbc := by
    unfold sellLe at *
    rcases hab with h1 | ⟨h1, h1'⟩ <;> rcases hbc with h2 | ⟨h2, h2'⟩
    · exact Or.inl (h1.trans h2)
    · exact Or.inl (h2 ▸ h1)
    · exact Or.inl (h1 ▸ h2)
    · exact Or.inr ⟨h1.trans h2, h1'.trans h2'⟩

/-- `OrderBook::sortOrders` (`src/MarketPublisher.cpp`, second unit): sort both
sides by price first and then by id (time priority). -/
def OrderBook.sortOrders (ob : OrderBook) : OrderBook :=
  { ob with buyOrders := List.insertionSort buyLe ob.buyOrders,
            sellOrders := List.insertionSort sellLe ob.sellOrders }

/-- The `while` loop of `OrderBook::matchOrders`, with explicit fuel.  One
iteration: stop if either side is empty or the best buy is priced below the
best sell; otherwise trade `min` of the two remaining quantities at the sell
price, append the trade, decrement both orders and pop any order whose
remaining quantity reached zero.  The C++ locals `tradeQuantity` (the min)
and the decremented orders are inlined.  `matchLoop_exit` shows the fuel
passed by `matchOrders` always suffices. -/
def matchLoop : Nat → List Order → List Order → List Trade →
    List Order × List Order × List Trade
  | 0, buys, sells, trades => (buys, sells, trades)
  | _ + 1, [], sells, trades => ([], sells, trades)
  | _ + 1, b :: buys, [], trades => (b :: buys, [], trades)
  | fuel + 1, bestBuy :: restBuys, bestSell :: restSells, trades =>
    if bestBuy.price < bestSell.price then
      (bestBuy :: restBuys, bestSell :: restSells, trades)
    else
      matchLoop fuel
        (if bestBuy.quantity - min bestBuy.quantity bestSell.quantity = 0 then restBuys
          else { bestBuy with
            quantity := bestBuy.quantity - min bestBuy.quantity bestSell.quantity } :: restBuys)
        (if bestSell.quantity - min bestBuy.quantity bestSell.quantity = 0 then restSells
          else { bestSell with
            quantity := bestSell.quantity - min bestBuy.quantity bestSell.quantity } :: restSells)
        (trades ++ [⟨bestBuy.id, bestSell.id, bestSell.price,
          min bestBuy.quantity bestSell.quantity⟩])

/-- `OrderBook::matchOrders` (`src/MarketPublisher.cpp`, second unit):
sort, then run the matching loop until no cross remains. -/
def OrderBook.matchOrders (ob : OrderBook) : OrderBook :=
  let sorted := ob.sortOrders
  let result := matchLoop (sorted.buyOrders.length + sorted.sellOrders.length + 1)
    sorted.buyOrders sorted.sellOrders sorted.trades
  { sorted with buyOrders := result.1, sellOrders := result.2.1, trades := result.2.2 }

/-- `OrderBook::getTradeHistory`. -/
def OrderBook.getTradeHistory (ob : OrderBook) : List Trade := ob.trades

/-- Modelled from the spec: `OrderBook::getRecentTrades` — called from
`Session.cpp` but not defined in any source file.  Per the spec: "Returns all
trades appended since the previous call (i.e. trades with index ≥ cursor),
then advances the cursor to the current tail." -/
def OrderBook.getRecentTrades (ob : OrderBook) : List Trade × OrderBook :=
  (ob.trades.drop ob.lastTradeIndex, { ob with lastTradeIndex := ob.trades.length })

/-! ## Operation traces

The client-visible book API, used to quantify over "every sequence of
`addOrder`, `cancelOrder` and `matchOrders` calls". -/

/-- One call of the public `OrderBook` API. -/
inductive BookOp where
  | add (type : OrderType) (price : ℚ) (quantity : Int)
  | cancel (orderId : Int)
  | matchOrders
deriving DecidableEq, Repr

/-- Apply one API call to a book (discarding the returned id / flag). -/
def applyOp (ob : OrderBook) : BookOp → OrderBook
  | BookOp.add t p q => (ob.addOrder t p q).2
  | BookOp.cancel oid => (ob.cancelOrder oid).2
  | BookOp.matchOrders => ob.matchOrders

/-- Run a sequence of API calls from a given book. -/
def runFrom (ob : OrderBook) (ops : List BookOp) : OrderBook := ops.foldl applyOp ob

/-- Run a sequence of API calls from a freshly constructed book. -/
def runOps (ops : List BookOp) : OrderBook := runFrom emptyBook ops

/-- The resting orders of the given side of a book. -/
def OrderBook.side (ob : OrderBook) : OrderType → List Order
  | OrderType.BUY => ob.buyOrders
  | OrderType.SELL => ob.sellOrders

/-- Total remaining quantity of a list of resting orders. -/
def quantitySum (orders : List Order) : Int := (orders.map Order.quantity).sum

/-- Total quantity of a list of trades.  Every trade decrements the matched
buy order and the matched sell order by exactly its quantity, so this is the
traded quantity attributed to either side. -/
def tradedSum (trades : List Trade) : Int := (trades.map Trade.quantity).sum

/-- Total quantity submitted via `addOrder` on the given side over a trace. -/
def submittedQty (side : OrderType) (ops : List BookOp) : Int :=
  (ops.map (fun op => match op with
    | BookOp.add t _ q => if t = side then q else 0
    | _ => 0)).sum

/-- Ghost accounting for conservation: the remaining quantity that a
`cancelOrder oid` call on book `ob` removes from the given side (zero from the
sell side whenever the id is found on the buy side, because the C++
`cancel(buyOrders) || cancel(sellOrders)` short-circuits). -/
def cancelledQty (side : OrderType) (ob : OrderBook) (oid : Int) : Int :=
  match side with
  | OrderType.BUY => quantitySum (ob.buyOrders.filter (fun o => o.id == oid))
  | OrderType.SELL =>
      if ob.buyOrders.any (fun o => o.id == oid) then 0
      else quantitySum (ob.sellOrders.filter (fun o => o.id == oid))

/-- Ghost accounting for conservation: total remaining quantity removed from
the given side by the `cancelOrder` calls of a trace run from `ob`. -/
def cancelledTotal (side : OrderType) : List BookOp → OrderBook → Int
  | [], _ => 0
  | op :: ops, ob =>
      (match op with
       | BookOp.cancel oid => cancelledQty side ob oid
       | _ => 0) + cancelledTotal side ops (applyOp ob op)

/-! ## Text formatting -/

/-- Decimal digits of the fractional part of a non-negative rational, most
significant first, at most `fuel` digits, stopping at the first exact zero
remainder (so short decimals print without trailing zeros). -/
def fracDigits : Nat → ℚ → List Char
  | 0, _ => []
  | fuel + 1, f =>
      if f = 0 then []
      else
        let f10 := f * 10
        Char.ofNat ('0'.toNat + f10.floor.toNat) :: fracDigits fuel (f10 - f10.floor)

/-- Rendering of a C++ `double` by `operator<<` at the default precision, for
the values arising here: integral values print with no decimal point, short
decimals print their digits without trailing zeros (up to six fractional
digits). -/
def fmtQ (q : ℚ) : String :=
  if q.den = 1 then toString q.num
  else
    let sign := if q < 0 then "-" else ""
    let a := |q|
    sign ++ toString a.floor.toNat ++ "." ++ List.asString (fracDigits 6 (a - a.floor))

/-- `Trade::toString` (`src/Trade.cpp`). -/
def Trade.render (t : Trade) : String :=
  "TRADE BuyID: " ++ toString t.buyOrderId ++ ", SellID: " ++ toString t.sellOrderId
    ++ ", Price: " ++ fmtQ t.price ++ ", Quantity: " ++ toString t.quantity

/-! ## Session command parsing (`Session::doRead`, `src/Session.cpp`) -/

/-- Whitespace of the default "C" locale `isspace`, the set used both by
stream extraction (`istringstream >> token`) and by `strtod`/`strtol`:
space, `\t`, `\n`, vertical tab, form feed, `\r`. -/
def isCppSpace (c : Char) : Bool :=
  c == ' ' || c == '\t' || c == '\n' || c == '\x0B' || c == '\x0C' || c == '\r'

/-- Leading decimal digits of a character list, and the rest. -/
def takeDigits : List Char → List Char × List Char
  | [] => ([], [])
  | c :: cs =>
      if c.isDigit then
        let rest := takeDigits cs
        (c :: rest.1, rest.2)
      else ([], c :: cs)

/-- Value of a string of decimal digits. -/
def digitsToNat (ds : List Char) : Nat :=
  ds.foldl (fun acc c => 10 * acc + (c.toNat - '0'.toNat)) 0

/-- Hexadecimal digit test, as `isxdigit` in the "C" locale. -/
def isHexDigitChar (c : Char) : Bool :=
  c.isDigit || ('a' ≤ c && c ≤ 'f') || ('A' ≤ c && c ≤ 'F')

/-- Leading hexadecimal digits of a character list, and the rest. -/
def takeHexDigits : List Char → List Char × List Char
  | [] => ([], [])
  | c :: cs =>
      if isHexDigitChar c then
        let rest := takeHexDigits cs
        (c :: rest.1, rest.2)
      else ([], c :: cs)

/-- Value of one hexadecimal digit. -/
def hexVal (c : Char) : Nat :=
  if c.isDigit then c.toNat - '0'.toNat
  else if 'a' ≤ c then c.toNat - 'a'.toNat + 10
  else c.toNat - 'A'.toNat + 10

/-- Value of a string of hexadecimal digits. -/
def hexToNat (ds : List Char) : Nat :=
  ds.foldl (fun acc c => 16 * acc + hexVal c) 0

/-- Case-insensitive keyword prefix test (`strtod` accepts `inf`, `infinity`
and `nan` in any case). -/
def matchesKeyword : List Char → List Char → Bool
  | [], _ => true
  | _ :: _, [] => false
  | k :: ks, c :: cs => c.toLower == k && matchesKeyword ks cs

/-- An optional exponent part of the `strtod` grammar: the marker (`e`/`E`,
or `p`/`P` for hexadecimal significands), an optional sign, and at least one
decimal digit — with no digit the marker is not part of the subject sequence
and the exponent is 0, exactly as with `strtod`'s longest-valid-prefix
rule. -/
def parseExp (m1 m2 : Char) (cs : List Char) : Int :=
  match cs with
  | [] => 0
  | c :: cs1 =>
      if c == m1 || c == m2 then
        let signed : Int × List Char :=
          match cs1 with
          | '+' :: r => (1, r)
          | '-' :: r => (-1, r)
          | r => (1, r)
        let ds := (takeDigits signed.2).1
        if ds = [] then 0 else signed.1 * (digitsToNat ds : Int)
      else 0

/-- A `std::stod` conversion that succeeds without producing a finite value:
the session would go on to store an IEEE infinity or NaN in the book. -/
inductive StodSpecial where
  | posInf
  | negInf
  | nan
deriving DecidableEq, Repr

/-- Outcome of the `std::stod` model.

* `ok v` — the subject sequence converts, and its exact value `v` lies in a
  zone where every conforming implementation behaves alike: either
  `v ≤ 0` (the conversion result is a non-positive double, or for huge
  magnitudes `std::out_of_range` — in every case `Session::doRead` answers
  `INVALID INPUT` with the book untouched), or `v` is a positive value well
  inside double range (the order is accepted; per the embedding convention
  the exact decimal value stands for the double it rounds to).
* `special s` — the conversion yields `±infinity` or NaN.
* `invalid` — no conversion can be performed: `std::invalid_argument`.
* `outOfRange` — a positive value at or above the `DBL_MAX` rounding
  midpoint `2^1024 - 2^970`: overflow, hence `std::out_of_range` on every
  implementation.
* `underflowZero` — a positive value at or below half the smallest
  subnormal, `2^-1075`: it rounds to zero, and the session answers
  `INVALID INPUT` on every implementation — via `std::out_of_range` where
  the C library reports the underflow, else via the `price <= 0.0` check.
* `borderline` — a positive value in the subnormal zone below `DBL_MIN`
  (where underflow reporting, and hence the `std::out_of_range` throw, is
  implementation-defined) or in the fringe just above `DBL_MAX` that rounds
  down to `DBL_MAX`; behaviour is not uniform across implementations and is
  left outside the model. -/
inductive StodResult where
  | ok (value : ℚ)
  | special (s : StodSpecial)
  | invalid
  | outOfRange
  | underflowZero
  | borderline
deriving DecidableEq, Repr

/-- Zone classification of an exact finite `strtod` value; see
`StodResult`. -/
def classifyFinite (v : ℚ) : StodResult :=
  if v ≤ 0 then StodResult.ok v
  else if v ≤ 1 / (2 : ℚ) ^ 1075 then StodResult.underflowZero
  else if v < 1 / (2 : ℚ) ^ 1022 then StodResult.borderline
  else if v ≤ (2 : ℚ) ^ 1024 - (2 : ℚ) ^ 971 then StodResult.ok v
  else if v < (2 : ℚ) ^ 1024 - (2 : ℚ) ^ 970 then StodResult.borderline
  else StodResult.outOfRange

/-- The decimal arm of the `strtod` grammar: decimal digits with an optional
fraction and an optional `e`/`E` exponent; no conversion when there is no
digit before the exponent. -/
def stodDecimal (neg : Bool) (cs : List Char) : StodResult :=
  let ip := takeDigits cs
  let parts : List Char × List Char × List Char :=
    match ip.2 with
    | '.' :: cs2 => (ip.1, (takeDigits cs2).1, (takeDigits cs2).2)
    | other => (ip.1, [], other)
  if parts.1 = [] ∧ parts.2.1 = [] then StodResult.invalid
  else
    let mag := ((digitsToNat parts.1 : ℚ) +
        (digitsToNat parts.2.1 : ℚ) / (10 : ℚ) ^ parts.2.1.length) *
      (10 : ℚ) ^ parseExp 'e' 'E' parts.2.2
    classifyFinite (if neg then -mag else mag)

/-- Model of `std::stod`, that is of `strtod`: skip "C"-locale whitespace,
an optional sign, then the longest prefix matching one of: a decimal
significand with optional fraction and optional `e`/`E` decimal exponent; a
`0x`/`0X` hexadecimal significand with optional fraction and optional
`p`/`P` binary exponent (a `0x` not followed by a hexadecimal digit falls
back to the decimal prefix `0`); `inf`/`infinity`; `nan` (each
case-insensitive).  Trailing characters are ignored, as by `std::stod`.
The exact value of the matched prefix is computed in `ℚ` and classified by
`classifyFinite`. -/
def stod (s : String) : StodResult :=
  let cs0 := s.data.dropWhile (fun c => isCppSpace c)
  let signed : Bool × List Char :=
    match cs0 with
    | '+' :: r => (false, r)
    | '-' :: r => (true, r)
    | r => (false, r)
  let neg := signed.1
  let rest := signed.2
  if matchesKeyword ['i', 'n', 'f'] rest then
    StodResult.special (if neg then StodSpecial.negInf else StodSpecial.posInf)
  else if matchesKeyword ['n', 'a', 'n'] rest then
    StodResult.special StodSpecial.nan
  else
    match rest with
    | '0' :: c :: cs1 =>
        if c == 'x' || c == 'X' then
          let hi := takeHexDigits cs1
          let parts : List Char × List Char × List Char :=
            match hi.2 with
            | '.' :: cs2 => (hi.1, (takeHexDigits cs2).1, (takeHexDigits cs2).2)
            | other => (hi.1, [], other)
          if parts.1 = [] ∧ parts.2.1 = [] then stodDecimal neg rest
          else
            let mag := ((hexToNat parts.1 : ℚ) +
                (hexToNat parts.2.1 : ℚ) / (16 : ℚ) ^ parts.2.1.length) *
              (2 : ℚ) ^ parseExp 'p' 'P' parts.2.2
            classifyFinite (if neg then -mag else mag)
        else stodDecimal neg rest
    | _ => stodDecimal neg rest

/-- Model of `std::stoi` (also of `istream >> int`, which accepts the same
strings here): skip "C"-locale whitespace, an optional sign, then decimal
digits — the longest valid prefix; `none` models `std::invalid_argument`
(no digits) or `std::out_of_range` (outside the range of `int`, whether the
intermediate `long` conversion overflows or only the final `int` check
fails) — both are caught and reported as invalid input by
`Session::doRead`. -/
def stoi (s : String) : Option Int :=
  let cs0 := s.data.dropWhile (fun c => isCppSpace c)
  let afterSign : Int × List Char :=
    match cs0 with
    | '+' :: rest => (1, rest)
    | '-' :: rest => (-1, rest)
    | cs => (1, cs)
  let ds := (takeDigits afterSign.2).1
  if ds = [] then none
  else
    let v := afterSign.1 * (digitsToNat ds : Int)
    if v < -(2 ^ 31) ∨ (2 : Int) ^ 31 - 1 < v then none else some v

/-- Split a character list into maximal whitespace-free words; `acc` holds the
reversed current word. -/
def splitWordsAux : List Char → List Char → List (List Char)
  | [], acc => if acc = [] then [] else [acc.reverse]
  | c :: cs, acc =>
      if isCppSpace c then
        if acc = [] then splitWordsAux cs []
        else acc.reverse :: splitWordsAux cs []
      else splitWordsAux cs (c :: acc)

/-- The whitespace tokenisation performed by `istringstream >> std::string` in
`Session::doRead`: the line's maximal whitespace-free words, in order. -/
def tokenize (line : String) : List String :=
  (splitWordsAux line.data []).map List.asString

/-- Outcome of `Session::doRead` handling one input line: the `sendMessage`
calls made for that line (in order), the book afterwards, and whether the
handler re-arms `doRead()` so that further lines from this connection are
processed. -/
structure StepResult where
  sent : List String
  book : OrderBook
  continues : Bool
deriving DecidableEq, Repr

/-- The command dispatch of `Session::doRead` (`src/Session.cpp`, first unit,
the revision the spec consolidates on).  Faithful points: a line with no
command token answers `INVALID INPUT` and returns *without* calling
`doRead()` again; `DC` acknowledges and closes; `CANCEL` validates
`orderId > 0` before touching the book; `BUY`/`SELL` run `stod` then `stoi`
(an exception from either is caught and answered `INVALID INPUT`), reject
`price <= 0.0 || quantity <= 0`, and otherwise add, match, drain the recent
trades and echo them after the confirmation; every other path re-arms
`doRead()`.

The result is `none` exactly where the C++ stores a non-finite double in the
book — a successfully parsed `+infinity` or NaN price with a valid positive
quantity (NaN prices additionally make the `std::sort` comparator not a
strict weak order, which is undefined behaviour), or a price in a
`borderline` rounding zone where implementations differ on whether
`std::stod` throws.  Those lines leave the rational-price state space of
this embedding; no claim quantifies over them. -/
def sessionStep (line : String) (ob : OrderBook) : Option StepResult :=
  match tokenize line with
  | [] => some ⟨["INVALID INPUT\n\n"], ob, false⟩
  | command :: args =>
    if command = "DC" then
      some ⟨["Disconnecting...\n\n"], ob, false⟩
    else if command = "CANCEL" then
      match args with
      | [] => some ⟨["INVALID INPUT\n\n"], ob, true⟩
      | idTok :: _ =>
        match stoi idTok with
        | none => some ⟨["INVALID INPUT\n\n"], ob, true⟩
        | some orderId =>
          if orderId ≤ 0 then some ⟨["INVALID INPUT\n\n"], ob, true⟩
          else
            let result := ob.cancelOrder orderId
            if result.1 then
              some ⟨["CANCELLED OrderID: " ++ toString orderId ++ "\n\n"], result.2, true⟩
            else
              some ⟨["ORDER NOT FOUND: " ++ toString orderId ++ "\n\n"], result.2, true⟩
    else if command = "BUY" ∨ command = "SELL" then
      match args with
      | priceStr :: quantityStr :: _ =>
        (match stod priceStr, stoi quantityStr with
         | StodResult.invalid, _ => some ⟨["INVALID INPUT\n\n"], ob, true⟩
         | StodResult.outOfRange, _ => some ⟨["INVALID INPUT\n\n"], ob, true⟩
         | StodResult.underflowZero, _ => some ⟨["INVALID INPUT\n\n"], ob, true⟩
         | _, none => some ⟨["INVALID INPUT\n\n"], ob, true⟩
         | StodResult.ok price, some quantity =>
            if price ≤ 0 ∨ quantity ≤ 0 then some ⟨["INVALID INPUT\n\n"], ob, true⟩
            else
              let t := if command = "BUY" then OrderType.BUY else OrderType.SELL
              let added := ob.addOrder t price quantity
              let matched := added.2.matchOrders
              let drained := matched.getRecentTrades
              some ⟨["CONFIRMED OrderID: " ++ toString added.1 ++ "\n\n" ++
                  String.join (drained.1.map (fun tr => tr.render ++ "\n\n"))],
                drained.2, true⟩
         | StodResult.special sp, some quantity =>
            if sp = StodSpecial.negInf ∨ quantity ≤ 0 then
              some ⟨["INVALID INPUT\n\n"], ob, true⟩
            else none
         | StodResult.borderline, some quantity =>
            if quantity ≤ 0 then some ⟨["INVALID INPUT\n\n"], ob, true⟩
            else none)
      | _ => some ⟨["INVALID INPUT\n\n"], ob, true⟩
    else some ⟨["INVALID INPUT\n\n"], ob, true⟩

/-- The input-validation failure classes for book-touching commands, each of
which every conforming implementation answers with `INVALID INPUT`: `BUY` or
`SELL` with a missing price or quantity argument, a price with no numeric
prefix or whose value is non-positive (including `-inf`), certainly out of
double range, or an underflow to zero, a quantity that fails `int`
conversion, or a non-positive parsed quantity; and `CANCEL` with a missing,
unconvertible or non-positive order id. -/
def invalidOrderLine (line : String) : Bool :=
  match tokenize line with
  | [] => false
  | cmd :: args =>
    if cmd = "BUY" ∨ cmd = "SELL" then
      match args with
      | [] => true
      | [_] => true
      | p :: q :: _ =>
        match stod p, stoi q with
        | StodResult.invalid, _ => true
        | StodResult.outOfRange, _ => true
        | StodResult.underflowZero, _ => true
        | _, none => true
        | StodResult.ok pv, some qv => pv ≤ 0 ∨ qv ≤ 0
        | StodResult.special sp, some qv => sp = StodSpecial.negInf ∨ qv ≤ 0
        | StodResult.borderline, some qv => qv ≤ 0
    else if cmd = "CANCEL" then
      match args with
      | [] => true
      | i :: _ =>
        match stoi i with
        | none => true
        | some v => v ≤ 0
    else false

/-! ## Market publisher (`src/MarketPublisher.cpp`) -/

/-- A registry entry of `MarketPublisher`: a `weak_ptr<Session>` — `some sid`
while the session is live (the weak pointer can be locked), `none` once it has
expired. -/
abbrev SessionRef := Option Nat

/-- `MarketPublisher::cleanupExpiredSessions`: erase–remove of expired
entries. -/
def cleanupExpiredSessions (sessions : List SessionRef) : List SessionRef :=
  sessions.filter (fun w => !w.isNone)

/-- `MarketPublisher::formatMarketTrade`: the redacted market-data line —
price and quantity only, never the order ids. -/
def formatMarketTrade (trade : Trade) : String :=
  "MARKET TRADE Price: " ++ fmtQ trade.price ++ ", Quantity: " ++ toString trade.quantity
    ++ "\n\n"

/-- `MarketPublisher::broadcastTradeToMarket`: purge expired registry entries,
format the redacted line once, and `sendMessage` it to every live session
other than the sender.  Returns the purged registry and the `sendMessage`
calls in registry order.  (When the sender's own weak pointer has expired,
`sender.lock()` is null in the C++ and the line goes to every live session —
modelled by `sender = none`.) -/
def broadcastTradeToMarket (sessions : List SessionRef) (trade : Trade)
    (sender : Option Nat) : List SessionRef × List (Nat × String) :=
  let cleaned := cleanupExpiredSessions sessions
  let marketMessage := formatMarketTrade trade
  (cleaned,
    cleaned.filterMap (fun w =>
      match w with
      | some sid => if some sid ≠ sender then some (sid, marketMessage) else none
      | none => none))

/-! ## Lemmas about the matching loop -/

theorem buyLe_price {a b : Order} (h : buyLe a b) : b.price ≤ a.price := by
  rcases h with h | ⟨h, _⟩
  · exact le_of_lt h
  · exact le_of_eq h.symm

theorem sellLe_price {a b : Order} (h : sellLe a b) : a.price ≤ b.price := by
  rcases h with h | ⟨h, _⟩
  · exact le_of_lt h
  · exact le_of_eq h

/-- The trade log only grows: the loop's output log extends its input log. -/
theorem matchLoop_trades_extend (fuel : Nat) :
    ∀ buys sells trades, ∃ new,
      (matchLoop fuel buys sells trades).2.2 = trades ++ new := by
  induction fuel with
  | zero =>
    intro buys sells trades
    exact ⟨[], (List.append_nil trades).symm⟩
  | succ n ih =>
    intro buys sells trades
    match buys, sells with
    | [], sells => exact ⟨[], (List.append_nil trades).symm⟩
    | b :: bs, [] => exact ⟨[], (List.append_nil trades).symm⟩
    | b :: bs, s :: ss =>
      by_cases hlt : b.price < s.price
      · rw [matchLoop, if_pos hlt]
        exact ⟨[], (List.append_nil trades).symm⟩
      · rw [matchLoop, if_neg hlt]
        obtain ⟨new, hnew⟩ := ih
          (if b.quantity - min b.quantity s.quantity = 0 then bs
            else { b with quantity := b.quantity - min b.quantity s.quantity } :: bs)
          (if s.quantity - min b.quantity s.quantity = 0 then ss
            else { s with quantity := s.quantity - min b.quantity s.quantity } :: ss)
          (trades ++ [⟨b.id, s.id, s.price, min b.quantity s.quantity⟩])
        refine ⟨⟨b.id, s.id, s.price, min b.quantity s.quantity⟩ :: new, ?_⟩
        simpa [List.append_assoc] using hnew

/-- Every iteration that trades pops at least one order, so with fuel
exceeding the total number of resting orders the loop stops only at one of
its genuine exits: a side is exhausted or the best prices no longer cross. -/
theorem matchLoop_exit (fuel : Nat) :
    ∀ buys sells trades, buys.length + sells.length < fuel →
      (matchLoop fuel buys sells trades).1 = [] ∨
      (matchLoop fuel buys sells trades).2.1 = [] ∨
      ∃ b bs s ss, (matchLoop fuel buys sells trades).1 = b :: bs ∧
        (matchLoop fuel buys sells trades).2.1 = s :: ss ∧ b.price < s.price := by
  induction fuel with
  | zero =>
    intro buys sells trades h
    omega
  | succ n ih =>
    intro buys sells trades h
    match buys, sells with
    | [], sells => exact Or.inl rfl
    | b :: bs, [] => exact Or.inr (Or.inl rfl)
    | b :: bs, s :: ss =>
      by_cases hlt : b.price < s.price
      · rw [matchLoop, if_pos hlt]
        exact Or.inr (Or.inr ⟨b, bs, s, ss, rfl, rfl, hlt⟩)
      · rw [matchLoop, if_neg hlt]
        apply ih
        rcases le_total b.quantity s.quantity with hq | hq
        · rw [if_pos (by omega : b.quantity - min b.quantity s.quantity = 0)]
          have : (if s.quantity - min b.quantity s.quantity = 0 then ss
              else { s with quantity := s.quantity - min b.quantity s.quantity } :: ss).length
              ≤ ss.length + 1 := by
            split <;> simp
          simp only [List.length_cons] at h ⊢
          omega
        · rw [if_pos (by omega : s.quantity - min b.quantity s.quantity = 0)]
          have : (if b.quantity - min b.quantity s.quantity = 0 then bs
              else { b with quantity := b.quantity - min b.quantity s.quantity } :: bs).length
              ≤ bs.length + 1 := by
            split <;> simp
          simp only [List.length_cons] at h ⊢
          omega

/-- The loop preserves sortedness of both sides, for any ordering that does
not look at quantities (the only field the loop mutates). -/
theorem matchLoop_pairwise (Rb Rs : Order → Order → Prop)
    (hRb : ∀ a q b, Rb a b → Rb { a with quantity := q } b)
    (hRs : ∀ a q b, Rs a b → Rs { a with quantity := q } b) (fuel : Nat) :
    ∀ buys sells trades, buys.Pairwise Rb → sells.Pairwise Rs →
      (matchLoop fuel buys sells trades).1.Pairwise Rb ∧
      (matchLoop fuel buys sells trades).2.1.Pairwise Rs := by
  induction fuel with
  | zero =>
    intro buys sells trades hb hs
    exact ⟨hb, hs⟩
  | succ n ih =>
    intro buys sells trades hb hs
    match buys, sells with
    | [], sells => exact ⟨hb, hs⟩
    | b :: bs, [] => exact ⟨hb, hs⟩
    | b :: bs, s :: ss =>
      by_cases hlt : b.price < s.price
      · rw [matchLoop, if_pos hlt]
        exact ⟨hb, hs⟩
      · rw [matchLoop, if_neg hlt]
        apply ih
        · rcases List.pairwise_cons.mp hb with ⟨hbhead, hbtail⟩
          split
          · exact hbtail
          · exact List.pairwise_cons.mpr ⟨fun x hx => hRb b _ x (hbhead x hx), hbtail⟩
        · rcases List.pairwise_cons.mp hs with ⟨hshead, hstail⟩
          split
          · exact hstail
          · exact List.pairwise_cons.mpr ⟨fun x hx => hRs s _ x (hshead x hx), hstail⟩

/-- A state at one of the loop's exits is a fixed point of the loop. -/
theorem matchLoop_fixed (fuel : Nat) (buys sells : List Order) (trades : List Trade)
    (h : buys = [] ∨ sells = [] ∨
      ∃ b bs s ss, buys = b :: bs ∧ sells = s :: ss ∧ b.price < s.price) :
    matchLoop (fuel + 1) buys sells trades = (buys, sells, trades) := by
  rcases h with h | h | ⟨b, bs, s, ss, hb, hs, hlt⟩
  · subst h; rfl
  · subst h
    match buys with
    | [] => rfl
    | b :: bs => rfl
  · subst hb; subst hs
    rw [matchLoop, if_pos hlt]

/-- `matchOrders` spelled out: the loop applied to the sorted sides, with the
fuel `matchOrders` passes. -/
theorem matchOrders_eq (ob : OrderBook) :
    ob.matchOrders =
      { buyOrders := (matchLoop
            ((List.insertionSort buyLe ob.buyOrders).length +
              (List.insertionSort sellLe ob.sellOrders).length + 1)
            (List.insertionSort buyLe ob.buyOrders)
            (List.insertionSort sellLe ob.sellOrders) ob.trades).1,
        sellOrders := (matchLoop
            ((List.insertionSort buyLe ob.buyOrders).length +
              (List.insertionSort sellLe ob.sellOrders).length + 1)
            (List.insertionSort buyLe ob.buyOrders)
            (List.insertionSort sellLe ob.sellOrders) ob.trades).2.1,
        nextOrderId := ob.nextOrderId,
        trades := (matchLoop
            ((List.insertionSort buyLe ob.buyOrders).length +
              (List.insertionSort sellLe ob.sellOrders).length + 1)
            (List.insertionSort buyLe ob.buyOrders)
            (List.insertionSort sellLe ob.sellOrders) ob.trades).2.2,
        lastTradeIndex := ob.lastTradeIndex } := rfl

theorem buyLe_quantity_blind (a : Order) (q : Int) (b : Order) (h : buyLe a b) :
    buyLe { a with quantity := q } b := h

theorem sellLe_quantity_blind (a : Order) (q : Int) (b : Order) (h : sellLe a b) :
    sellLe { a with quantity := q } b := h

/-- After `matchOrders`, every remaining buy is priced strictly below every
remaining sell (so, when both sides are non-empty, the highest buy price is
strictly below the lowest sell price: the book is not crossed). -/
theorem matchOrders_not_crossed (ob : OrderBook) :
    ∀ b ∈ ob.matchOrders.buyOrders, ∀ s ∈ ob.matchOrders.sellOrders, b.price < s.price := by
  intro b hb s hs
  rw [matchOrders_eq] at hb hs
  set SB := List.insertionSort buyLe ob.buyOrders with hSB
  set SS := List.insertionSort sellLe ob.sellOrders with hSS
  have hpair := matchLoop_pairwise buyLe sellLe buyLe_quantity_blind sellLe_quantity_blind
    (SB.length + SS.length + 1) SB SS ob.trades
    (List.sorted_insertionSort buyLe ob.buyOrders)
    (List.sorted_insertionSort sellLe ob.sellOrders)
  have hexit := matchLoop_exit (SB.length + SS.length + 1) SB SS ob.trades
    (Nat.lt_succ_self _)
  rcases hexit with h | h | ⟨bh, bt, sh, st, h1, h2, hlt⟩
  · rw [h] at hb
    cases hb
  · rw [h] at hs
    cases hs
  · rw [h1] at hb
    rw [h2] at hs
    have hpb := hpair.1
    have hps := hpair.2
    rw [h1] at hpb
    rw [h2] at hps
    have hble : b.price ≤ bh.price := by
      rcases List.mem_cons.mp hb with rfl | hmem
      · exact le_refl _
      · exact buyLe_price ((List.pairwise_cons.mp hpb).1 b hmem)
    have hsle : sh.price ≤ s.price := by
      rcases List.mem_cons.mp hs with rfl | hmem
      · exact le_refl _
      · exact sellLe_price ((List.pairwise_cons.mp hps).1 s hmem)
    exact lt_of_le_of_lt hble (lt_of_lt_of_le hlt hsle)

/-- New trades recorded by the loop involve a resting buy and a resting sell
drawn (up to the in-place quantity decrements) from the supplied origin lists,
execute at the sell order's price, and never exceed the buy order's price. -/
theorem matchLoop_origin (B S : List Order) (fuel : Nat) :
    ∀ buys sells trades,
      (∀ o ∈ buys, ∃ o' ∈ B, o.id = o'.id ∧ o.price = o'.price) →
      (∀ o ∈ sells, ∃ o' ∈ S, o.id = o'.id ∧ o.price = o'.price) →
      ∀ t ∈ (matchLoop fuel buys sells trades).2.2.drop trades.length,
        ∃ b ∈ B, ∃ s ∈ S, t.buyOrderId = b.id ∧ t.sellOrderId = s.id ∧
          t.price = s.price ∧ t.price ≤ b.price := by
  induction fuel with
  | zero =>
    intro buys sells trades _ _ t ht
    simp only [matchLoop, List.drop_length] at ht
    cases ht
  | succ n ih =>
    intro buys sells trades hb hs t ht
    match buys, sells with
    | [], sells =>
      simp only [matchLoop, List.drop_length] at ht
      cases ht
    | b :: bs, [] =>
      simp only [matchLoop, List.drop_length] at ht
      cases ht
    | b :: bs, s :: ss =>
      by_cases hlt : b.price < s.price
      · rw [matchLoop, if_pos hlt] at ht
        simp only [List.drop_length] at ht
        cases ht
      · rw [matchLoop, if_neg hlt] at ht
        obtain ⟨rest, hrest⟩ := matchLoop_trades_extend n
          (if b.quantity - min b.quantity s.quantity = 0 then bs
            else { b with quantity := b.quantity - min b.quantity s.quantity } :: bs)
          (if s.quantity - min b.quantity s.quantity = 0 then ss
            else { s with quantity := s.quantity - min b.quantity s.quantity } :: ss)
          (trades ++ [⟨b.id, s.id, s.price, min b.quantity s.quantity⟩])
        have hb' : ∀ o ∈ (if b.quantity - min b.quantity s.quantity = 0 then bs
            else { b with quantity := b.quantity - min b.quantity s.quantity } :: bs),
            ∃ o' ∈ B, o.id = o'.id ∧ o.price = o'.price := by
          split
          · intro o ho
            exact hb o (List.mem_cons_of_mem _ ho)
          · intro o ho
            rcases List.mem_cons.mp ho with rfl | hmem
            · exact hb b (List.mem_cons_self _ _)
            · exact hb o (List.mem_cons_of_mem _ hmem)
        have hs' : ∀ o ∈ (if s.quantity - min b.quantity s.quantity = 0 then ss
            else { s with quantity := s.quantity - min b.quantity s.quantity } :: ss),
            ∃ o' ∈ S, o.id = o'.id ∧ o.price = o'.price := by
          split
          · intro o ho
            exact hs o (List.mem_cons_of_mem _ ho)
          · intro o ho
            rcases List.mem_cons.mp ho with rfl | hmem
            · exact hs s (List.mem_cons_self _ _)
            · exact hs o (List.mem_cons_of_mem _ hmem)
        rw [hrest, List.append_assoc, List.drop_left] at ht
        rcases List.mem_cons.mp ht with rfl | hmem
        · obtain ⟨b', hbB, hbid, hbpr⟩ := hb b (List.mem_cons_self _ _)
          obtain ⟨s', hsS, hsid, hspr⟩ := hs s (List.mem_cons_self _ _)
          refine ⟨b', hbB, s', hsS, hbid, hsid, hspr, ?_⟩
          calc s.price ≤ b.price := not_lt.mp hlt
            _ = b'.price := hbpr
        · refine ih _ _ (trades ++ [⟨b.id, s.id, s.price, min b.quantity s.quantity⟩])
            hb' hs' t ?_
          rw [hrest, List.drop_left]
          exact hmem

/-! ## Claim theorems: matching behaviour -/

/-- C1.  Scenario S6: from an empty book, `addOrder(BUY, 101.0, 5)` returns
id 1, `addOrder(BUY, 100.0, 5)` returns id 2, `addOrder(SELL, 99.0, 8)`
returns id 3, and `matchOrders()` appends exactly the trades
`(1, 3, 99.0, 5)` then `(2, 3, 99.0, 3)`, leaving buy order 2 resting with
remaining quantity 2 and the sell side empty. -/
theorem addOrder_matchOrders_multi_cross :
    (emptyBook.addOrder OrderType.BUY 101 5).1 = 1 ∧
    (((emptyBook.addOrder OrderType.BUY 101 5).2.addOrder OrderType.BUY 100 5)).1 = 2 ∧
    ((((emptyBook.addOrder OrderType.BUY 101 5).2.addOrder OrderType.BUY 100 5).2.addOrder
      OrderType.SELL 99 8)).1 = 3 ∧
    ((((emptyBook.addOrder OrderType.BUY 101 5).2.addOrder OrderType.BUY 100 5).2.addOrder
      OrderType.SELL 99 8).2.matchOrders).trades = [⟨1, 3, 99, 5⟩, ⟨2, 3, 99, 3⟩] ∧
    ((((emptyBook.addOrder OrderType.BUY 101 5).2.addOrder OrderType.BUY 100 5).2.addOrder
      OrderType.SELL 99 8).2.matchOrders).buyOrders = [⟨2, OrderType.BUY, 100, 2⟩] ∧
    ((((emptyBook.addOrder OrderType.BUY 101 5).2.addOrder OrderType.BUY 100 5).2.addOrder
      OrderType.SELL 99 8).2.matchOrders).sellOrders = [] := by
  decide

/-- C2.  For every sequence of `addOrder` / `cancelOrder` / `matchOrders`
calls, immediately after `matchOrders` returns every resting buy is priced
strictly below every resting sell — equivalently, either a side is empty or
the best (highest-price) buy is strictly below the best (lowest-price) sell;
the book is never left crossed.  (Every point of a trace "immediately after a
`matchOrders`" is of the form `(runOps ops).matchOrders`.) -/
theorem matchOrders_never_crossed (ops : List BookOp) :
    ∀ b ∈ (runOps ops).matchOrders.buyOrders,
      ∀ s ∈ (runOps ops).matchOrders.sellOrders, b.price < s.price :=
  matchOrders_not_crossed (runOps ops)

/-- Witness for C2 at a concrete trace leaving both sides non-empty. -/
theorem matchOrders_never_crossed_witness :
    (⟨1, OrderType.BUY, 99, 10⟩ : Order).price < (⟨2, OrderType.SELL, 100, 5⟩ : Order).price :=
  matchOrders_never_crossed
    [BookOp.add OrderType.BUY 99 10, BookOp.add OrderType.SELL 100 5]
    ⟨1, OrderType.BUY, 99, 10⟩ (by decide) ⟨2, OrderType.SELL, 100, 5⟩ (by decide)

/-- C3.  Every trade appended by `matchOrders` executes at the matched
resting sell order's price, and the matched buy order's price is at least
that trade price.  The matched orders are identified by the trade's recorded
ids among the orders resting when `matchOrders` was entered (matching never
changes an order's price, only its remaining quantity). -/
theorem matchOrders_trade_at_sell_price (ob : OrderBook) (t : Trade)
    (ht : t ∈ (ob.matchOrders).trades.drop ob.trades.length) :
    ∃ b ∈ ob.buyOrders, ∃ s ∈ ob.sellOrders,
      t.buyOrderId = b.id ∧ t.sellOrderId = s.id ∧
      t.price = s.price ∧ t.price ≤ b.price := by
  rw [matchOrders_eq] at ht
  refine matchLoop_origin ob.buyOrders ob.sellOrders _ _ _ _ ?_ ?_ t ht
  · intro o ho
    exact ⟨o, (List.perm_insertionSort buyLe ob.buyOrders).subset ho, rfl, rfl⟩
  · intro o ho
    exact ⟨o, (List.perm_insertionSort sellLe ob.sellOrders).subset ho, rfl, rfl⟩

/-- Witness for C3 at a concrete crossing book. -/
theorem matchOrders_trade_at_sell_price_witness :
    ∃ b ∈ ((emptyBook.addOrder OrderType.BUY 100 5).2.addOrder
      OrderType.SELL 99 5).2.buyOrders,
    ∃ s ∈ ((emptyBook.addOrder OrderType.BUY 100 5).2.addOrder
      OrderType.SELL 99 5).2.sellOrders,
      (⟨1, 2, 99, 5⟩ : Trade).buyOrderId = b.id ∧
      (⟨1, 2, 99, 5⟩ : Trade).sellOrderId = s.id ∧
      (⟨1, 2, 99, 5⟩ : Trade).price = s.price ∧
      (⟨1, 2, 99, 5⟩ : Trade).price ≤ b.price :=
  matchOrders_trade_at_sell_price
    ((emptyBook.addOrder OrderType.BUY 100 5).2.addOrder OrderType.SELL 99 5).2
    ⟨1, 2, 99, 5⟩ (by decide)

/-- C10.  `matchOrders` is idempotent: run immediately again it appends no
trades and leaves both sides (and the whole book) exactly as the first run
left them. -/
theorem matchOrders_idempotent (ob : OrderBook) :
    ob.matchOrders.matchOrders = ob.matchOrders := by
  set SB := List.insertionSort buyLe ob.buyOrders with hSB
  set SS := List.insertionSort sellLe ob.sellOrders with hSS
  have hpair := matchLoop_pairwise buyLe sellLe buyLe_quantity_blind sellLe_quantity_blind
    (SB.length + SS.length + 1) SB SS ob.trades
    (List.sorted_insertionSort buyLe ob.buyOrders)
    (List.sorted_insertionSort sellLe ob.sellOrders)
  have hexit := matchLoop_exit (SB.length + SS.length + 1) SB SS ob.trades
    (Nat.lt_succ_self _)
  have e1 : ob.matchOrders.buyOrders =
      (matchLoop (SB.length + SS.length + 1) SB SS ob.trades).1 := rfl
  have e2 : ob.matchOrders.sellOrders =
      (matchLoop (SB.length + SS.length + 1) SB SS ob.trades).2.1 := rfl
  have h1 : List.insertionSort buyLe ob.matchOrders.buyOrders =
      ob.matchOrders.buyOrders :=
    List.Sorted.insertionSort_eq (by rw [e1]; exact hpair.1)
  have h2 : List.insertionSort sellLe ob.matchOrders.sellOrders =
      ob.matchOrders.sellOrders :=
    List.Sorted.insertionSort_eq (by rw [e2]; exact hpair.2)
  rw [← e1, ← e2] at hexit
  have hfix := matchLoop_fixed
    (ob.matchOrders.buyOrders.length + ob.matchOrders.sellOrders.length)
    ob.matchOrders.buyOrders ob.matchOrders.sellOrders ob.matchOrders.trades hexit
  conv_lhs => rw [matchOrders_eq ob.matchOrders]
  rw [h1, h2, hfix]

/-! ## Claim theorems: recent-trades drain and cancellation -/

/-- C4.  The recent-trades drain: when the log is the trades already read at
the previous invocation (which left the cursor at their count) followed by
the trades appended since, `getRecentTrades` returns exactly the appended
trades and advances the cursor to the current tail; called again immediately
(no intervening `matchOrders`) it returns the empty sequence. -/
theorem getRecentTrades_drain (ob : OrderBook) (old recent : List Trade)
    (h1 : ob.trades = old ++ recent) (h2 : ob.lastTradeIndex = old.length) :
    (ob.getRecentTrades).1 = recent ∧
    (ob.getRecentTrades).2.lastTradeIndex = ob.trades.length ∧
    ((ob.getRecentTrades).2.getRecentTrades).1 = [] := by
  refine ⟨?_, rfl, ?_⟩
  · simp only [OrderBook.getRecentTrades, h1, h2]
    exact List.drop_left old recent
  · simp only [OrderBook.getRecentTrades]
    exact List.drop_length ob.trades

/-- Witness for C4 at a concrete book: one already-read trade, one new one. -/
theorem getRecentTrades_drain_witness :
    ((⟨[], [], 3, [⟨1, 2, 100, 5⟩, ⟨3, 2, 101, 2⟩], 1⟩ : OrderBook).getRecentTrades).1
        = [⟨3, 2, 101, 2⟩] ∧
    ((⟨[], [], 3, [⟨1, 2, 100, 5⟩, ⟨3, 2, 101, 2⟩], 1⟩ : OrderBook).getRecentTrades).2.lastTradeIndex
        = (⟨[], [], 3, [⟨1, 2, 100, 5⟩, ⟨3, 2, 101, 2⟩], 1⟩ : OrderBook).trades.length ∧
    ((((⟨[], [], 3, [⟨1, 2, 100, 5⟩, ⟨3, 2, 101, 2⟩], 1⟩ : OrderBook).getRecentTrades).2).getRecentTrades).1
        = [] :=
  getRecentTrades_drain _ [⟨1, 2, 100, 5⟩] [⟨3, 2, 101, 2⟩] rfl rfl

/-- C5.  On a book whose two sides share no order id (true of every book the
engine builds, since ids are assigned from a strictly increasing counter):
`cancelOrder id` returns true iff an order with that id is resting (buy side
searched first, then sell side); on false the book is unchanged; on return no
order with that id remains on either side; and a second `cancelOrder id`
immediately after a successful one returns false. -/
theorem cancelOrder_found_iff (ob : OrderBook) (oid : Int)
    (hdisj : ∀ o ∈ ob.buyOrders, ∀ o' ∈ ob.sellOrders, o.id ≠ o'.id) :
    ((ob.cancelOrder oid).1 = true ↔
      (∃ o ∈ ob.buyOrders, o.id = oid) ∨ (∃ o ∈ ob.sellOrders, o.id = oid)) ∧
    ((ob.cancelOrder oid).1 = false → (ob.cancelOrder oid).2 = ob) ∧
    (∀ o ∈ (ob.cancelOrder oid).2.buyOrders, o.id ≠ oid) ∧
    (∀ o ∈ (ob.cancelOrder oid).2.sellOrders, o.id ≠ oid) ∧
    ((ob.cancelOrder oid).1 = true → (((ob.cancelOrder oid).2).cancelOrder oid).1 = false) := by
  by_cases hbuy : ob.buyOrders.any (fun o => o.id == oid) = true
  · obtain ⟨o₀, ho₀, hid₀⟩ : ∃ o ∈ ob.buyOrders, o.id = oid := by
      simpa using hbuy
    have hc : ob.cancelOrder oid =
        (true, { ob with buyOrders := ob.buyOrders.filter (fun o => !(o.id == oid)) }) := by
      simp [OrderBook.cancelOrder, cancelFrom, hbuy]
    have hsells : ∀ o ∈ ob.sellOrders, o.id ≠ oid := by
      intro o ho heq
      exact hdisj o₀ ho₀ o ho (hid₀.trans heq.symm)
    have hbuys' : ∀ o ∈ ob.buyOrders.filter (fun o => !(o.id == oid)), o.id ≠ oid := by
      intro o ho
      have := (List.mem_filter.mp ho).2
      simpa using this
    rw [hc]
    refine ⟨?_, ?_, ?_, ?_, ?_⟩
    · exact iff_of_true rfl (Or.inl ⟨o₀, ho₀, hid₀⟩)
    · intro h
      exact absurd h (by simp)
    · exact hbuys'
    · exact hsells
    intro _
    have h1 : (ob.buyOrders.filter (fun o => !(o.id == oid))).any (fun o => o.id == oid) = false := by
      rw [Bool.eq_false_iff]
      intro h
      obtain ⟨o, ho, hoid⟩ := List.any_eq_true.mp h
      exact hbuys' o ho (by simpa using hoid)
    have h2 : ob.sellOrders.any (fun o => o.id == oid) = false := by
      rw [Bool.eq_false_iff]
      intro h
      obtain ⟨o, ho, hoid⟩ := List.any_eq_true.mp h
      exact hsells o ho (by simpa using hoid)
    simp [OrderBook.cancelOrder, cancelFrom, h1, h2]
  · have hbuy' : ob.buyOrders.any (fun o => o.id == oid) = false := by
      simpa using hbuy
    have hbuysid : ∀ o ∈ ob.buyOrders, o.id ≠ oid := by
      intro o ho heq
      exact hbuy (List.any_eq_true.mpr ⟨o, ho, by simpa using heq⟩)
    by_cases hsell : ob.sellOrders.any (fun o => o.id == oid) = true
    · obtain ⟨o₀, ho₀, hid₀⟩ : ∃ o ∈ ob.sellOrders, o.id = oid := by
        simpa using hsell
      have hc : ob.cancelOrder oid =
          (true, { ob with sellOrders := ob.sellOrders.filter (fun o => !(o.id == oid)) }) := by
        simp [OrderBook.cancelOrder, cancelFrom, hbuy', hsell]
      have hsells' : ∀ o ∈ ob.sellOrders.filter (fun o => !(o.id == oid)), o.id ≠ oid := by
        intro o ho
        have := (List.mem_filter.mp ho).2
        simpa using this
      rw [hc]
      refine ⟨?_, ?_, ?_, ?_, ?_⟩
      · exact iff_of_true rfl (Or.inr ⟨o₀, ho₀, hid₀⟩)
      · intro h
        exact absurd h (by simp)
      · exact hbuysid
      · exact hsells'
      intro _
      have h2 : (ob.sellOrders.filter (fun o => !(o.id == oid))).any (fun o => o.id == oid) = false := by
        rw [Bool.eq_false_iff]
        intro h
        obtain ⟨o, ho, hoid⟩ := List.any_eq_true.mp h
        exact hsells' o ho (by simpa using hoid)
      simp [OrderBook.cancelOrder, cancelFrom, hbuy', h2]
    · have hsell' : ob.sellOrders.any (fun o => o.id == oid) = false := by
        simpa using hsell
      have hsellsid : ∀ o ∈ ob.sellOrders, o.id ≠ oid := by
        intro o ho heq
        exact hsell (List.any_eq_true.mpr ⟨o, ho, by simpa using heq⟩)
      have hc : ob.cancelOrder oid = (false, ob) := by
        simp [OrderBook.cancelOrder, cancelFrom, hbuy', hsell']
      rw [hc]
      refine ⟨?_, ?_, ?_, ?_, ?_⟩
      · refine iff_of_false (by simp) ?_
        rintro (⟨o, ho, hoid⟩ | ⟨o, ho, hoid⟩)
        · exact hbuysid o ho hoid
        · exact hsellsid o ho hoid
      · intro _
        rfl
      · exact hbuysid
      · exact hsellsid
      intro h
      exact absurd h (by simp)

/-- Witness for C5 at a concrete two-sided book, cancelling the buy order. -/
theorem cancelOrder_found_iff_witness :
    (((⟨[⟨1, OrderType.BUY, 100, 5⟩], [⟨2, OrderType.SELL, 101, 5⟩], 3, [], 0⟩ :
        OrderBook).cancelOrder 1).1 = true ↔
      (∃ o ∈ (⟨[⟨1, OrderType.BUY, 100, 5⟩], [⟨2, OrderType.SELL, 101, 5⟩], 3, [], 0⟩ :
        OrderBook).buyOrders, o.id = 1) ∨
      (∃ o ∈ (⟨[⟨1, OrderType.BUY, 100, 5⟩], [⟨2, OrderType.SELL, 101, 5⟩], 3, [], 0⟩ :
        OrderBook).sellOrders, o.id = 1)) ∧
    (((⟨[⟨1, OrderType.BUY, 100, 5⟩], [⟨2, OrderType.SELL, 101, 5⟩], 3, [], 0⟩ :
        OrderBook).cancelOrder 1).1 = false →
      ((⟨[⟨1, OrderType.BUY, 100, 5⟩], [⟨2, OrderType.SELL, 101, 5⟩], 3, [], 0⟩ :
        OrderBook).cancelOrder 1).2 =
        ⟨[⟨1, OrderType.BUY, 100, 5⟩], [⟨2, OrderType.SELL, 101, 5⟩], 3, [], 0⟩) ∧
    (∀ o ∈ (((⟨[⟨1, OrderType.BUY, 100, 5⟩], [⟨2, OrderType.SELL, 101, 5⟩], 3, [], 0⟩ :
        OrderBook).cancelOrder 1).2).buyOrders, o.id ≠ 1) ∧
    (∀ o ∈ (((⟨[⟨1, OrderType.BUY, 100, 5⟩], [⟨2, OrderType.SELL, 101, 5⟩], 3, [], 0⟩ :
        OrderBook).cancelOrder 1).2).sellOrders, o.id ≠ 1) ∧
    (((⟨[⟨1, OrderType.BUY, 100, 5⟩], [⟨2, OrderType.SELL, 101, 5⟩], 3, [], 0⟩ :
        OrderBook).cancelOrder 1).1 = true →
      ((((⟨[⟨1, OrderType.BUY, 100, 5⟩], [⟨2, OrderType.SELL, 101, 5⟩], 3, [], 0⟩ :
        OrderBook).cancelOrder 1).2).cancelOrder 1).1 = false) :=
  cancelOrder_found_iff
    ⟨[⟨1, OrderType.BUY, 100, 5⟩], [⟨2, OrderType.SELL, 101, 5⟩], 3, [], 0⟩ 1 (by decide)

/-! ## Conservation of quantity -/

theorem quantitySum_nil : quantitySum [] = 0 := rfl

theorem quantitySum_cons (o : Order) (l : List Order) :
    quantitySum (o :: l) = o.quantity + quantitySum l := by
  simp [quantitySum]

theorem quantitySum_append (l₁ l₂ : List Order) :
    quantitySum (l₁ ++ l₂) = quantitySum l₁ + quantitySum l₂ := by
  simp [quantitySum]

theorem quantitySum_perm {l l' : List Order} (h : l.Perm l') :
    quantitySum l = quantitySum l' :=
  (h.map Order.quantity).sum_eq

theorem tradedSum_append (l₁ l₂ : List Trade) :
    tradedSum (l₁ ++ l₂) = tradedSum l₁ + tradedSum l₂ := by
  simp [tradedSum]

/-- Splitting a side's quantity over the orders a cancellation removes and
the orders it keeps. -/
theorem quantitySum_filter_split (l : List Order) (oid : Int) :
    quantitySum (l.filter (fun o => !(o.id == oid))) +
      quantitySum (l.filter (fun o => o.id == oid)) = quantitySum l := by
  induction l with
  | nil => rfl
  | cons o l ih =>
    rcases Bool.eq_false_or_eq_true (o.id == oid) with h | h <;>
      simp [List.filter_cons, h, quantitySum_cons] <;> omega

/-- The loop conserves quantity on each side: resting quantity plus logged
trade quantity is invariant (every trade decrements each side by exactly its
quantity, and orders are only popped when their remainder is exactly zero). -/
theorem matchLoop_conserve (fuel : Nat) :
    ∀ buys sells trades,
      quantitySum (matchLoop fuel buys sells trades).1 +
        tradedSum (matchLoop fuel buys sells trades).2.2
        = quantitySum buys + tradedSum trades ∧
      quantitySum (matchLoop fuel buys sells trades).2.1 +
        tradedSum (matchLoop fuel buys sells trades).2.2
        = quantitySum sells + tradedSum trades := by
  induction fuel with
  | zero =>
    intro buys sells trades
    exact ⟨rfl, rfl⟩
  | succ n ih =>
    intro buys sells trades
    match buys, sells with
    | [], sells => exact ⟨rfl, rfl⟩
    | b :: bs, [] => exact ⟨rfl, rfl⟩
    | b :: bs, s :: ss =>
      by_cases hlt : b.price < s.price
      · rw [matchLoop, if_pos hlt]
        exact ⟨rfl, rfl⟩
      · rw [matchLoop, if_neg hlt]
        obtain ⟨ihb, ihs⟩ := ih
          (if b.quantity - min b.quantity s.quantity = 0 then bs
            else { b with quantity := b.quantity - min b.quantity s.quantity } :: bs)
          (if s.quantity - min b.quantity s.quantity = 0 then ss
            else { s with quantity := s.quantity - min b.quantity s.quantity } :: ss)
          (trades ++ [⟨b.id, s.id, s.price, min b.quantity s.quantity⟩])
        have hQb : quantitySum (if b.quantity - min b.quantity s.quantity = 0 then bs
            else { b with quantity := b.quantity - min b.quantity s.quantity } :: bs)
            = quantitySum (b :: bs) - min b.quantity s.quantity := by
          split
          · next h => rw [quantitySum_cons]; omega
          · simp only [quantitySum_cons]
            omega
        have hQs : quantitySum (if s.quantity - min b.quantity s.quantity = 0 then ss
            else { s with quantity := s.quantity - min b.quantity s.quantity } :: ss)
            = quantitySum (s :: ss) - min b.quantity s.quantity := by
          split
          · next h => rw [quantitySum_cons]; omega
          · simp only [quantitySum_cons]
            omega
        have hT : tradedSum (trades ++ [⟨b.id, s.id, s.price, min b.quantity s.quantity⟩])
            = tradedSum trades + min b.quantity s.quantity := by
          simp [tradedSum]
        rw [hQb] at ihb
        rw [hQs] at ihs
        rw [hT] at ihb ihs
        exact ⟨by omega, by omega⟩

/-- `matchOrders` conserves resting-plus-traded quantity on each side. -/
theorem matchOrders_conserve (ob : OrderBook) (side : OrderType) :
    quantitySum (ob.matchOrders.side side) + tradedSum ob.matchOrders.trades
      = quantitySum (ob.side side) + tradedSum ob.trades := by
  have hpb : quantitySum (List.insertionSort buyLe ob.buyOrders) = quantitySum ob.buyOrders :=
    quantitySum_perm (List.perm_insertionSort _ _)
  have hps : quantitySum (List.insertionSort sellLe ob.sellOrders) = quantitySum ob.sellOrders :=
    quantitySum_perm (List.perm_insertionSort _ _)
  obtain ⟨h1, h2⟩ := matchLoop_conserve
    ((List.insertionSort buyLe ob.buyOrders).length +
      (List.insertionSort sellLe ob.sellOrders).length + 1)
    (List.insertionSort buyLe ob.buyOrders)
    (List.insertionSort sellLe ob.sellOrders) ob.trades
  cases side
  · show quantitySum ob.matchOrders.buyOrders + tradedSum ob.matchOrders.trades
      = quantitySum ob.buyOrders + tradedSum ob.trades
    rw [matchOrders_eq]
    rw [hpb] at h1
    exact h1
  · show quantitySum ob.matchOrders.sellOrders + tradedSum ob.matchOrders.trades
      = quantitySum ob.sellOrders + tradedSum ob.trades
    rw [matchOrders_eq]
    rw [hps] at h2
    exact h2

/-- One `addOrder` call adds its quantity to its side's resting total. -/
theorem addOrder_ledger (ob : OrderBook) (t : OrderType) (p : ℚ) (q : Int) (side : OrderType) :
    quantitySum (((ob.addOrder t p q).2).side side) + tradedSum ((ob.addOrder t p q).2).trades
      = quantitySum (ob.side side) + tradedSum ob.trades + (if t = side then q else 0) := by
  cases t <;> cases side <;>
    simp [OrderBook.addOrder, OrderBook.side, quantitySum_append, quantitySum_cons,
      quantitySum_nil] <;>
    omega

/-- One `cancelOrder` call removes exactly the ghost-accounted quantity from
each side. -/
theorem cancelOrder_ledger (ob : OrderBook) (oid : Int) (side : OrderType) :
    quantitySum (((ob.cancelOrder oid).2).side side) + tradedSum ((ob.cancelOrder oid).2).trades
      = quantitySum (ob.side side) + tradedSum ob.trades - cancelledQty side ob oid := by
  by_cases hbuy : ob.buyOrders.any (fun o => o.id == oid) = true
  · have hc : (ob.cancelOrder oid).2 =
        { ob with buyOrders := ob.buyOrders.filter (fun o => !(o.id == oid)) } := by
      simp [OrderBook.cancelOrder, cancelFrom, hbuy]
    rw [hc]
    cases side
    · show quantitySum (ob.buyOrders.filter (fun o => !(o.id == oid))) + tradedSum ob.trades
        = quantitySum ob.buyOrders + tradedSum ob.trades -
          quantitySum (ob.buyOrders.filter (fun o => o.id == oid))
      have := quantitySum_filter_split ob.buyOrders oid
      omega
    · show quantitySum ob.sellOrders + tradedSum ob.trades
        = quantitySum ob.sellOrders + tradedSum ob.trades -
          (if ob.buyOrders.any (fun o => o.id == oid) = true then 0
            else quantitySum (ob.sellOrders.filter (fun o => o.id == oid)))
      rw [if_pos hbuy]
      omega
  · have hbuy' : ob.buyOrders.any (fun o => o.id == oid) = false := by simpa using hbuy
    have hzero : quantitySum (ob.buyOrders.filter (fun o => o.id == oid)) = 0 := by
      have : ob.buyOrders.filter (fun o => o.id == oid) = [] := by
        rw [List.filter_eq_nil_iff]
        intro o ho hoid
        exact hbuy (List.any_eq_true.mpr ⟨o, ho, hoid⟩)
      rw [this]
      rfl
    have hc : (ob.cancelOrder oid).2 =
        { ob with sellOrders := ob.sellOrders.filter (fun o => !(o.id == oid)) } := by
      by_cases hsell : ob.sellOrders.any (fun o => o.id == oid) = true
      · simp [OrderBook.cancelOrder, cancelFrom, hbuy', hsell]
      · have hsell' : ob.sellOrders.any (fun o => o.id == oid) = false := by simpa using hsell
        have hkeep : ob.sellOrders.filter (fun o => !(o.id == oid)) = ob.sellOrders := by
          rw [List.filter_eq_self]
          intro o ho
          have : (o.id == oid) = false := by
            rw [Bool.eq_false_iff]
            intro h
            exact hsell (List.any_eq_true.mpr ⟨o, ho, h⟩)
          simp [this]
        simp [OrderBook.cancelOrder, cancelFrom, hbuy', hsell', hkeep]
    rw [hc]
    cases side
    · show quantitySum ob.buyOrders + tradedSum ob.trades
        = quantitySum ob.buyOrders + tradedSum ob.trades -
          quantitySum (ob.buyOrders.filter (fun o => o.id == oid))
      omega
    · show quantitySum (ob.sellOrders.filter (fun o => !(o.id == oid))) + tradedSum ob.trades
        = quantitySum ob.sellOrders + tradedSum ob.trades -
          (if ob.buyOrders.any (fun o => o.id == oid) = true then 0
            else quantitySum (ob.sellOrders.filter (fun o => o.id == oid)))
      rw [if_neg (by simp [hbuy'])]
      have := quantitySum_filter_split ob.sellOrders oid
      omega

/-- Running a trace: resting quantity plus traded quantity plus ghosted
cancelled quantity grows by exactly the submitted quantity. -/
theorem runFrom_ledger (side : OrderType) :
    ∀ (ops : List BookOp) (ob : OrderBook),
      quantitySum ((runFrom ob ops).side side) + tradedSum (runFrom ob ops).trades +
        cancelledTotal side ops ob
        = quantitySum (ob.side side) + tradedSum ob.trades + submittedQty side ops := by
  intro ops
  induction ops with
  | nil =>
    intro ob
    simp [runFrom, cancelledTotal, submittedQty]
  | cons op ops ih =>
    intro ob
    cases op with
    | add t p q =>
      have e1 : runFrom ob (BookOp.add t p q :: ops) =
          runFrom ((ob.addOrder t p q).2) ops := rfl
      have e2 : cancelledTotal side (BookOp.add t p q :: ops) ob =
          0 + cancelledTotal side ops ((ob.addOrder t p q).2) := rfl
      have e3 : submittedQty side (BookOp.add t p q :: ops) =
          (if t = side then q else 0) + submittedQty side ops := by
        simp [submittedQty]
      have hstep := addOrder_ledger ob t p q side
      have hih := ih ((ob.addOrder t p q).2)
      rw [e1, e2, e3]
      omega
    | cancel oid =>
      have e1 : runFrom ob (BookOp.cancel oid :: ops) =
          runFrom ((ob.cancelOrder oid).2) ops := rfl
      have e2 : cancelledTotal side (BookOp.cancel oid :: ops) ob =
          cancelledQty side ob oid + cancelledTotal side ops ((ob.cancelOrder oid).2) := rfl
      have e3 : submittedQty side (BookOp.cancel oid :: ops) =
          0 + submittedQty side ops := by
        simp [submittedQty]
      have hstep := cancelOrder_ledger ob oid side
      have hih := ih ((ob.cancelOrder oid).2)
      rw [e1, e2, e3]
      omega
    | matchOrders =>
      have e1 : runFrom ob (BookOp.matchOrders :: ops) =
          runFrom ob.matchOrders ops := rfl
      have e2 : cancelledTotal side (BookOp.matchOrders :: ops) ob =
          0 + cancelledTotal side ops ob.matchOrders := rfl
      have e3 : submittedQty side (BookOp.matchOrders :: ops) =
          0 + submittedQty side ops := by
        simp [submittedQty]
      have hstep := matchOrders_conserve ob side
      have hih := ih ob.matchOrders
      rw [e1, e2, e3]
      omega

/-! ## Claim theorems: conservation (C6, corrected) -/

/-- Counterexample to C6 as stated: after `addOrder(BUY, 100.0, 5)` followed
by a successful `cancelOrder(1)`, the buy side rests 0 and the trade log
attributes 0 to the buy side, but 5 was submitted — cancellation destroys
resting quantity, so resting + traded ≠ submitted. -/
theorem conservation_plain_counterexample :
    ¬ (quantitySum ((runOps [BookOp.add OrderType.BUY 100 5, BookOp.cancel 1]).side
          OrderType.BUY) +
        tradedSum (runOps [BookOp.add OrderType.BUY 100 5, BookOp.cancel 1]).trades
        = submittedQty OrderType.BUY [BookOp.add OrderType.BUY 100 5, BookOp.cancel 1]) := by
  decide

/-- C6 (amended).  For every sequence of book operations and each side S, the
sum of remaining quantity resting on side S, plus the traded quantity
attributed to side S in the trade log, **plus the remaining quantity removed
from side S by `cancelOrder` calls**, equals the total quantity submitted via
`addOrder` on side S. -/
theorem conservation_with_cancellations (ops : List BookOp) (side : OrderType) :
    quantitySum ((runOps ops).side side) + tradedSum (runOps ops).trades +
      cancelledTotal side ops emptyBook
      = submittedQty side ops := by
  have h := runFrom_ledger side ops emptyBook
  have h0 : quantitySum (emptyBook.side side) = 0 := by cases side <;> rfl
  have h1 : tradedSum emptyBook.trades = 0 := rfl
  have h2 : runOps ops = runFrom emptyBook ops := rfl
  rw [h2]
  omega

/-! ## Claim theorems: session input validation -/

/-- C7.  Every `BUY`/`SELL` line whose price or quantity argument is missing,
fails numeric conversion, or parses to a non-positive value (and every line
in the other certainly-rejected parse classes of `invalidOrderLine`), and
every `CANCEL` line whose order id is missing, fails conversion, or is
non-positive, is answered by the single message `INVALID INPUT` (terminated
by the double newline), leaves the book unchanged (no book operation is
invoked), and the session keeps reading. -/
theorem invalid_input_leaves_book (line : String) (ob : OrderBook)
    (h : invalidOrderLine line = true) :
    sessionStep line ob = some ⟨["INVALID INPUT\n\n"], ob, true⟩ := by
  rcases htok : tokenize line with _ | ⟨cmd, args⟩
  · unfold invalidOrderLine at h
    rw [htok] at h
    exact absurd h (by decide)
  · unfold invalidOrderLine at h
    rw [htok] at h
    unfold sessionStep
    rw [htok]
    dsimp only at h ⊢
    by_cases hbs : cmd = "BUY" ∨ cmd = "SELL"
    · have hdc : ¬ cmd = "DC" := by
        rcases hbs with h' | h' <;> subst h' <;> decide
      have hcn : ¬ cmd = "CANCEL" := by
        rcases hbs with h' | h' <;> subst h' <;> decide
      rw [if_pos hbs] at h
      rw [if_neg hdc, if_neg hcn, if_pos hbs]
      rcases args with _ | ⟨p, args⟩
      · rfl
      rcases args with _ | ⟨q, rest⟩
      · rfl
      dsimp only at h ⊢
      cases hp : stod p with
      | invalid => cases hq : stoi q <;> rfl
      | outOfRange => cases hq : stoi q <;> rfl
      | underflowZero => cases hq : stoi q <;> rfl
      | ok pv =>
        cases hq : stoi q with
        | none => rfl
        | some qv =>
          rw [hp, hq] at h
          dsimp only at h ⊢
          have hcond : pv ≤ 0 ∨ qv ≤ 0 := of_decide_eq_true h
          rw [if_pos hcond]
      | special sp =>
        cases hq : stoi q with
        | none => rfl
        | some qv =>
          rw [hp, hq] at h
          dsimp only at h ⊢
          have hcond : sp = StodSpecial.negInf ∨ qv ≤ 0 := of_decide_eq_true h
          rw [if_pos hcond]
      | borderline =>
        cases hq : stoi q with
        | none => rfl
        | some qv =>
          rw [hp, hq] at h
          dsimp only at h ⊢
          have hcond : qv ≤ 0 := of_decide_eq_true h
          rw [if_pos hcond]
    · rw [if_neg hbs] at h
      by_cases hcn : cmd = "CANCEL"
      · have hdc : ¬ cmd = "DC" := by subst hcn; decide
        rw [if_pos hcn] at h
        rw [if_neg hdc, if_pos hcn]
        rcases args with _ | ⟨i, rest⟩
        · rfl
        dsimp only at h ⊢
        cases hi : stoi i with
        | none => rfl
        | some v =>
          rw [hi] at h
          dsimp only at h ⊢
          have hv : v ≤ 0 := of_decide_eq_true h
          rw [if_pos hv]
      · rw [if_neg hcn] at h
        exact absurd h (by decide)

/-- Witness for C7: `CANCEL -2` (negative order id). -/
theorem invalid_input_leaves_book_witness :
    sessionStep "CANCEL -2" emptyBook = some ⟨["INVALID INPUT\n\n"], emptyBook, true⟩ :=
  invalid_input_leaves_book "CANCEL -2" emptyBook (by decide)

/-- C9 evidence.  On a line whose command token is missing (an empty line),
the handler does send `INVALID INPUT` — but it returns without re-arming
`doRead()` (`continues = false`), so no subsequent command from that
connection is ever read or processed, contrary to the claimed behaviour
(every other validation failure re-arms the read; compare
`invalid_input_leaves_book`). -/
theorem missing_command_stops_reading :
    sessionStep "" emptyBook = some ⟨["INVALID INPUT\n\n"], emptyBook, false⟩ := by
  decide

/-! ## Claim theorems: market publisher -/

theorem broadcast_calls_eq (sender : Option Nat) (msg : String) :
    ∀ l : List SessionRef,
      l.filterMap (fun w =>
        match w with
        | some sid => if some sid ≠ sender then some (sid, msg) else none
        | none => none)
      = ((l.filterMap id).filter (fun sid => some sid != sender)).map
          (fun sid => (sid, msg)) := by
  intro l
  induction l with
  | nil => rfl
  | cons w l ih =>
    cases w with
    | none =>
      rw [List.filterMap_cons, List.filterMap_cons]
      exact ih
    | some sid =>
      rw [List.filterMap_cons, List.filterMap_cons]
      dsimp only [id]
      by_cases hs : some sid = sender
      · rw [if_neg (fun hne => hne hs)]
        dsimp only
        rw [List.filter_cons_of_neg (by simp [hs])]
        exact ih
      · rw [if_pos hs]
        dsimp only
        rw [@List.filter_cons_of_pos _ (fun x => some x != sender) sid
          (List.filterMap id l) (bne_iff_ne.mpr hs), List.map_cons, ih]

/-- C8.  The market publisher composes exactly the redacted line
`MARKET TRADE Price: <p>, Quantity: <q>` (double-newline terminated), which
depends only on the trade's price and quantity — never on the order ids —
and delivers it via `sendMessage` to exactly the registered sessions that are
still live and are not the originator; the originator never receives it. -/
theorem broadcastTrade_redacted (sessions : List SessionRef) (trade : Trade)
    (sender : Option Nat) :
    formatMarketTrade trade =
      "MARKET TRADE Price: " ++ fmtQ trade.price ++ ", Quantity: " ++
        toString trade.quantity ++ "\n\n" ∧
    (∀ t' : Trade, t'.price = trade.price → t'.quantity = trade.quantity →
      formatMarketTrade t' = formatMarketTrade trade) ∧
    (broadcastTradeToMarket sessions trade sender).1 = cleanupExpiredSessions sessions ∧
    (broadcastTradeToMarket sessions trade sender).2 =
      (((cleanupExpiredSessions sessions).filterMap id).filter
        (fun sid => some sid != sender)).map
        (fun sid => (sid, formatMarketTrade trade)) ∧
    (∀ sid, sender = some sid → ∀ msg,
      (sid, msg) ∉ (broadcastTradeToMarket sessions trade sender).2) := by
  refine ⟨rfl, ?_, rfl, ?_, ?_⟩
  · intro t' hp hq
    unfold formatMarketTrade
    rw [hp, hq]
  · exact broadcast_calls_eq sender (formatMarketTrade trade) (cleanupExpiredSessions sessions)
  · intro sid hsend msg hmem
    have hcalls := broadcast_calls_eq sender (formatMarketTrade trade)
      (cleanupExpiredSessions sessions)
    unfold broadcastTradeToMarket at hmem
    dsimp only at hmem
    rw [hcalls] at hmem
    rw [List.mem_map] at hmem
    obtain ⟨x, hx, heq⟩ := hmem
    have hxfil := (List.mem_filter.mp hx).2
    have hxsid : x = sid := congrArg Prod.fst heq
    rw [hxsid, hsend] at hxfil
    simp at hxfil

/-- Witness for C8: originator 1, registry with an expired entry and live
sessions 1 and 2 — session 1 does not receive its own trade. -/
theorem broadcastTrade_redacted_witness :
    (1, formatMarketTrade ⟨7, 8, 100, 5⟩) ∉
      (broadcastTradeToMarket [some 1, none, some 2] ⟨7, 8, 100, 5⟩ (some 1)).2 :=
  (broadcastTrade_redacted [some 1, none, some 2] ⟨7, 8, 100, 5⟩ (some 1)).2.2.2.2
    1 rfl (formatMarketTrade ⟨7, 8, 100, 5⟩)

end HftEngine
